import Mathlib

/-!
Verification development for the table extraction and normalization engine of
the sports-stats-analysis repository
(`src/modules/data_reception/fbref_parser.py`).

The Python module is shallowly embedded: a parsed `pandas.DataFrame` becomes a
`Table` (a header, flat or two-level, plus row-major cell data, where a `none`
cell models `NaN`), an HTML document becomes an `HtmlDoc` (the list of
`<table>` elements found by the structural scan, each `none` when
`pd.read_html` fails on it, plus the comment-delimited blocks with the tables
found inside them), and every function of the module becomes a total Lean
function over these types.  Python string primitives used by the code
(`str.strip`, `str.lower`, `str.replace`, `re.sub` on the patterns the code
uses, slicing, substring tests) are re-implemented character by character with
their Python semantics (ASCII inputs).
-/

set_option autoImplicit false

namespace FbrefParser

/-! ### Python string primitives -/

/-- Characters stripped by Python's `str.strip()` (ASCII whitespace). -/
def isPySpace (c : Char) : Bool :=
  c == ' ' || c == '\t' || c == '\n' || c == '\x0d' || c == '\x0b' || c == '\x0c'

/-- Python `str.strip()`: drop leading and trailing whitespace. -/
def pyStrip (s : String) : String :=
  ⟨((s.toList.dropWhile isPySpace).reverse.dropWhile isPySpace).reverse⟩

/-- Python `str.lower()` (ASCII). -/
def pyLower (s : String) : String :=
  ⟨s.toList.map Char.toLower⟩

/-- Core of Python `str.replace(old, new)`: scan left to right and replace
every non-overlapping occurrence of `pat`, never rescanning the replacement.
Structural recursion on a fuel argument (one unit per consumed character);
with `fuel = l.length` and a non-empty `pat` the fuel never runs out. -/
def replGo (pat rep : List Char) : Nat → List Char → List Char
  | 0, l => l
  | _ + 1, [] => []
  | fuel + 1, c :: cs =>
    if !pat.isEmpty && pat.isPrefixOf (c :: cs) then
      rep ++ replGo pat rep fuel ((c :: cs).drop pat.length)
    else
      c :: replGo pat rep fuel cs

/-- Python `s.replace(pat, rep)`. -/
def pyReplace (s pat rep : String) : String :=
  ⟨replGo pat.toList rep.toList s.toList.length s.toList⟩

/-- A word character in the sense of the regex `\w` on the labels the code
handles: letters, digits, underscore. -/
def isWordChar (c : Char) : Bool :=
  c.isAlphanum || c == '_'

/-- Core of `re.sub(r"[^\w]+", "_", s)`: each maximal run of non-word
characters becomes a single underscore.  The flag records whether the
previous character belonged to such a run. -/
def squashGo : Bool → List Char → List Char
  | _, [] => []
  | inRun, c :: cs =>
    if isWordChar c then c :: squashGo false cs
    else if inRun then squashGo true cs
    else '_' :: squashGo true cs

/-- `re.sub(r"[^\w]+", "_", s)`. -/
def squashNonWord (s : String) : String :=
  ⟨squashGo false s.toList⟩

/-- Core of `re.sub(r"_+", "_", s)`: collapse runs of underscores. -/
def collapseGo : Bool → List Char → List Char
  | _, [] => []
  | prevU, c :: cs =>
    if c == '_' then
      if prevU then collapseGo true cs else '_' :: collapseGo true cs
    else c :: collapseGo false cs

/-- `re.sub(r"_+", "_", s)`. -/
def collapseUnderscores (s : String) : String :=
  ⟨collapseGo false s.toList⟩

/-- Python `s.strip("_")`: drop leading and trailing underscores. -/
def stripUnderscores (s : String) : String :=
  ⟨((s.toList.dropWhile (· == '_')).reverse.dropWhile (· == '_')).reverse⟩

/-- Substring test (`pat in s` in Python): `pat` occurs contiguously in `s`. -/
def hasSubGo (pat : List Char) : List Char → Bool
  | [] => pat.isPrefixOf []
  | c :: cs => pat.isPrefixOf (c :: cs) || hasSubGo pat cs

/-- Python `pat in s`. -/
def hasSubstr (s pat : String) : Bool :=
  hasSubGo pat.toList s.toList

/-- Python `s[:6]`. -/
def pyTake6 (s : String) : String :=
  ⟨s.toList.take 6⟩

/-- Python `s.startswith(pre)`. -/
def pyStartsWith (s pre : String) : Bool :=
  pre.toList.isPrefixOf s.toList

/-- Python `s.endswith(suf)`. -/
def pyEndsWith (s suf : String) : Bool :=
  suf.toList.isSuffixOf s.toList

/-! ### The token rule `norm` (fbref_parser.py lines 123-130) -/

/-- The inner `norm` of `flatten_and_normalize_columns`: trim, lowercase,
literal substitutions, squash non-word runs, collapse underscores, strip
underscores — in exactly the source's order. -/
def norm (s : String) : String :=
  let s := pyLower (pyStrip s)
  let s := pyReplace s "g+a" "g_plus_a"
  let s := pyReplace s "g+apk" "g_plus_a_pk"
  let s := pyReplace s "per 90 minutes" "per90"
  let s := squashNonWord s
  let s := collapseUnderscores s
  stripUnderscores s

/-! ### Data model -/

/-- The column index of a parsed `DataFrame`: either flat labels or a
`MultiIndex` (one tuple of level labels per column). -/
inductive Header where
  | single : List String → Header
  | multi : List (List String) → Header
deriving DecidableEq

/-- A parsed table: its column index and its row-major cell grid; a `none`
cell models `NaN`. -/
structure Table where
  header : Header
  rows : List (List (Option String))
deriving DecidableEq

/-- `pd.DataFrame()`: the explicitly empty table. -/
def Table.empty : Table :=
  ⟨.single [], []⟩

/-- The flat field names of a table (a `MultiIndex` has none). -/
def fieldNames : Header → List String
  | .single ns => ns
  | .multi _ => []

/-- A raw document as the structural scan sees it: the `<table>` elements in
document order (`none` models a `pd.read_html` failure on that element) and
the comment-delimited blocks, each giving the `<table>` elements found inside
it (a block without table markup is a block whose list is empty). -/
structure HtmlDoc where
  tables : List (Option Table)
  commentBlocks : List (List (Option Table))
deriving DecidableEq

/-! ### Header flattening (fbref_parser.py lines 119-181) -/

/-- Keep a `MultiIndex` level text exactly when it is non-blank and is not a
pandas placeholder (`Unnamed: ...`): the test
`x and str(x).strip() and not str(x).lower().startswith("unnamed")`. -/
def goodPart (x : String) : Bool :=
  !(pyStrip x == "") && !(pyStartsWith (pyLower x) "unnamed")

/-- Base label of one `MultiIndex` tuple: the last good level, else `""`. -/
def baseOf (parts : List String) : String :=
  (parts.reverse.find? goodPart).getD ""

/-- Section label of one `MultiIndex` tuple: the first good level, else `""`. -/
def sectOf (parts : List String) : String :=
  (parts.find? goodPart).getD ""

/-- The fixed section-to-tag lookup table of the collision branch. -/
def tag_map (sname : String) : Option String :=
  if sname = "playing_time" then some "pt"
  else if sname = "performance" then some "perf"
  else if sname = "expected" then some "exp"
  else if sname = "progression" then some "prog"
  else if sname = "per90" then some "per90"
  else none

/-- The collision tag: `tag_map.get(sname, sname[:6] or "sec")`. -/
def collisionTag (sname : String) : String :=
  (tag_map sname).getD (if pyTake6 sname = "" then "sec" else pyTake6 sname)

/-- The pre-collision candidate name of one `(prim, sect_norm)` pair: the
base name, `_per90`-suffixed when the normalized section contains `"per90"`. -/
def candOf (p : String × String) : String :=
  if hasSubstr p.2 "per90" then p.1 ++ "_per90" else p.1

/-- The unique-name loop of the `MultiIndex` branch, carrying the `seen`
accumulator: on collision of the candidate with `seen`, base name plus the
collision tag; the result is recorded in `seen` unconditionally. -/
def mkUniqueGo (seen : List String) : List (String × String) → List String
  | [] => []
  | (pname, sname) :: rest =>
    let cand0 := candOf (pname, sname)
    let cand :=
      if seen.contains cand0 then pname ++ "_" ++ collisionTag sname else cand0
    cand :: mkUniqueGo (cand :: seen) rest

/-- Unique-name assignment over the `(prim, sect_norm)` pairs. -/
def mkUniqueNames (ps : List (String × String)) : List String :=
  mkUniqueGo [] ps

/-- Keep-first mask of `~df.columns.duplicated()`: `true` exactly at the first
occurrence of each name. -/
def keepFirstMaskGo (seen : List String) : List String → List Bool
  | [] => []
  | n :: rest => (!seen.contains n) :: keepFirstMaskGo (n :: seen) rest

/-- `~df.columns.duplicated()`. -/
def keepFirstMask (ns : List String) : List Bool :=
  keepFirstMaskGo [] ns

/-- Reference form of column deduplication, used only to reason about the
mask: keep each name's first occurrence, tracking all names seen so far. -/
def dedupFirst (seen : List String) : List String → List String
  | [] => []
  | n :: rest => (if seen.contains n then [] else [n]) ++ dedupFirst (n :: seen) rest

/-- Select the entries of `xs` marked `true` in `mask` (column selection by
boolean mask, applied to the name list and to every row). -/
def applyMask {α : Type} (mask : List Bool) (xs : List α) : List α :=
  (mask.zip xs).filterMap (fun p => if p.1 then some p.2 else none)

/-- A row survives `dropna(how="all")` exactly when some cell is not `NaN`. -/
def rowKept (r : List (Option String)) : Bool :=
  r.any (fun c => c.isSome)

/-- The name list assigned to `df.columns` before deduplication: the
normalized labels of a flat index, or the output of the unique-name loop over
the normalized Header Label Pairs of a `MultiIndex`. -/
def rawNamesOf (t : Table) : List String :=
  match t.header with
  | .multi tups =>
    mkUniqueNames (((tups.map baseOf).map norm).zip ((tups.map sectOf).map norm))
  | .single cols => cols.map norm

/-- `flatten_and_normalize_columns`: build the flat name list (normalizing a
flat index directly; running the unique-name loop over the Header Label Pairs
of a `MultiIndex`), then keep only the first column of each duplicated name,
drop rows that are `NaN` across all surviving columns, and reset the index
(the index is not part of the model). -/
def flatten_and_normalize_columns (t : Table) : Table :=
  let names :=
    match t.header with
    | .multi tups =>
      let raw_names := tups.map baseOf
      let sect_tags := tups.map sectOf
      let prim := raw_names.map norm
      let sect_norm := sect_tags.map norm
      mkUniqueNames (prim.zip sect_norm)
    | .single cols => cols.map norm
  let mask := keepFirstMask names
  { header := .single (applyMask mask names)
    rows := (t.rows.map (applyMask mask)).filter rowKept }

/-! ### Discovery, recovery and selection (fbref_parser.py lines 10-116) -/

/-- Column count of a table (`df.shape[1]`). -/
def nCols (t : Table) : Nat :=
  match t.header with
  | .single ns => ns.length
  | .multi tups => tups.length

/-- Lexicographic shape comparison used by
`sort(key=lambda d: (d.shape[0], d.shape[1]), reverse=True)`. -/
def shapeGT (a b : Table) : Bool :=
  let na := a.rows.length
  let nb := b.rows.length
  decide (na > nb) || (decide (na = nb) && decide (nCols a > nCols b))

/-- One step of scanning for the maximal-shape candidate: keep the incumbent
unless the new table's shape is strictly greater. -/
def pickStep (best : Option Table) (t : Table) : Option Table :=
  match best with
  | none => some t
  | some b => if shapeGT t b then some t else some b

/-- Head of the stable descending sort by `(row count, column count)`: the
earliest candidate with the maximal shape. -/
def pickBiggest (cands : List Table) : Option Table :=
  cands.foldl pickStep none

/-- `_extract_biggest_table_from_html` over the parsed `<table>` elements:
skip parse failures, keep tables with at least one raw row, flatten each, and
return the earliest candidate of maximal `(rows, cols)` shape, or `none`. -/
def extract_biggest_table_from_html (tbls : List (Option Table)) : Option Table :=
  pickBiggest
    (tbls.filterMap fun o =>
      o.bind fun t =>
        if t.rows.length ≠ 0 then some (flatten_and_normalize_columns t) else none)

/-- `_extract_biggest_table_from_html_comments`: run the visible extraction on
every comment block, keep non-empty results, and return the earliest one of
maximal shape, or `none`. -/
def extract_biggest_table_from_html_comments
    (blocks : List (List (Option Table))) : Option Table :=
  pickBiggest
    (blocks.filterMap fun b =>
      (extract_biggest_table_from_html b).bind fun t =>
        if t.rows.length ≠ 0 then some t else none)

/-- Row count of an optional table (`len(df)`; only consulted by the source
after an `is not None` test, under which the `none` case is irrelevant). -/
def optLen : Option Table → Nat
  | none => 0
  | some t => t.rows.length

/-- `biggest_table`: the selection policy over the two discovery outcomes.
`reset_index(drop=True)` is the identity in the model (no index). -/
def biggest_table (d : HtmlDoc) : Table :=
  let mainDf := extract_biggest_table_from_html d.tables
  let commentDf := extract_biggest_table_from_html_comments d.commentBlocks
  if (mainDf = none ∨ optLen mainDf = 0) ∧ (commentDf ≠ none ∧ optLen commentDf ≠ 0) then
    commentDf.getD Table.empty
  else if (mainDf ≠ none ∧ optLen mainDf ≠ 0 ∧ optLen mainDf < 100)
      ∧ (commentDf ≠ none ∧ optLen commentDf > optLen mainDf) then
    commentDf.getD Table.empty
  else if mainDf ≠ none ∧ optLen mainDf ≠ 0 then
    mainDf.getD Table.empty
  else
    Table.empty

/-! ### The specialized classifier (fbref_parser.py lines 184-229) -/

/-- One `<table>` element as the classifier sees it: its `id` attribute (if
any), the texts of its `thead th` cells, and the grid `pd.read_html` parses
from it. -/
structure TableTag where
  id : Option String
  headers : List String
  content : Table
deriving DecidableEq

/-- `[th.get_text(strip=True).lower() for th in t.select("thead th")]`. -/
def lowHeaders (t : TableTag) : List String :=
  t.headers.map (fun h => pyLower (pyStrip h))

/-- `soup.find("table", id=lambda x: x and "standings" in x.lower())` test. -/
def idMatchesStandings (t : TableTag) : Bool :=
  match t.id with
  | some s => !(s == "") && hasSubstr (pyLower s) "standings"
  | none => false

/-- `{"w", "d", "l"}.issubset(set(headers))`. -/
def isWDL (t : TableTag) : Bool :=
  ["w", "d", "l"].all (fun k => (lowHeaders t).contains k)

/-- `"pts" in headers or "points" in headers`. -/
def hasPoints (t : TableTag) : Bool :=
  (lowHeaders t).contains "pts" || (lowHeaders t).contains "points"

/-- The standings tag: first table whose id contains `"standings"`, else the
first whose headers contain w, d, l and pts-or-points. -/
def standingsTag (doc : List TableTag) : Option TableTag :=
  match doc.find? idMatchesStandings with
  | some t => some t
  | none => doc.find? (fun t => isWDL t && hasPoints t)

/-- The key-metric vocabulary `keys` of the team-stats fallback. -/
def keyMetrics : List String :=
  ["sh", "sot", "xg", "xga", "g", "ast", "cmp", "att", "tkl", "int"]

/-- `len(set(headers) & keys)`: how many vocabulary entries occur among the
lowercased header texts. -/
def overlapCount (t : TableTag) : Nat :=
  (keyMetrics.filter (fun k => (lowHeaders t).contains k)).length

/-- The fallback eligibility test of the team-stats scan:
`len(set(headers) & keys) >= 3 and not {"w", "d", "l"}.issubset(set(headers))`. -/
def teamFallbackPred (t : TableTag) : Bool :=
  decide (3 ≤ overlapCount t) && !isWDL t

/-- The team-stats tag: the two priority ids in order, else the first table
passing the fallback test. -/
def teamTag (doc : List TableTag) : Option TableTag :=
  match doc.find? (fun t => t.id == some "stats_squads_standard_for") with
  | some t => some t
  | none =>
    match doc.find? (fun t => t.id == some "stats_squads_standard") with
    | some t => some t
    | none => doc.find? teamFallbackPred

/-- `detect_standings_and_teamstats`: pick the two tags and pass each parsed
grid through the normalizer (`tidy`). -/
def detect_standings_and_teamstats (doc : List TableTag) :
    Option Table × Option Table :=
  ((standingsTag doc).map (fun t => flatten_and_normalize_columns t.content),
   (teamTag doc).map (fun t => flatten_and_normalize_columns t.content))

/-! ### Spec-side definitions, for refinement comparison only -/

/-- Modelled from the claim C5's words, not from the source: a table is
excluded exactly when it satisfies the full standings superset test (headers a
superset of w, d, l AND containing pts or points); among the remaining tables
with vocabulary overlap at least 3, return the one with the greatest overlap
(earliest on ties, which the claim leaves open). -/
def specTeamPick (doc : List TableTag) : Option TableTag :=
  let eligible := doc.filter (fun t => !(isWDL t && hasPoints t))
  let qual := eligible.filter (fun t => decide (3 ≤ overlapCount t))
  qual.foldl
    (fun best t =>
      match best with
      | none => some t
      | some b => if overlapCount t > overlapCount b then some t else best)
    none

/-- Modelled from the claim C6's words, not from the source: the collision tag
with the fixed map keyed by the labels as the claim writes them
("playing time" with a space), else the first six characters of the normalized
section label, else "sec". -/
def specTagOfSection (sname : String) : String :=
  if sname = "playing time" then "pt"
  else if sname = "performance" then "perf"
  else if sname = "expected" then "exp"
  else if sname = "progression" then "prog"
  else if sname = "per90" then "per90"
  else if pyTake6 sname = "" then "sec"
  else pyTake6 sname

/-! ### Helper lemmas -/

theorem bool_or_rot (x y z : Bool) : ((x || y) || z) = (y || (x || z)) := by
  cases x <;> cases y <;> cases z <;> rfl

theorem mkUniqueGo_length (ps : List (String × String)) :
    ∀ seen : List String, (mkUniqueGo seen ps).length = ps.length := by
  induction ps with
  | nil => intro seen; rfl
  | cons p rest ih =>
    intro seen
    cases p with
    | mk pname sname => simp [mkUniqueGo, ih]

theorem mkUniqueNames_length (ps : List (String × String)) :
    (mkUniqueNames ps).length = ps.length :=
  mkUniqueGo_length ps []

/-- The assigned name at position `i`, characterized by the names assigned to
the earlier positions: the candidate, unless it already occurs among `seen`
or among the first `i` outputs, in which case the collision tag is used. -/
theorem mkUniqueGo_getD (ps : List (String × String)) :
    ∀ (seen : List String) (i : Nat), i < ps.length →
      (mkUniqueGo seen ps).getD i "" =
        (if seen.contains (candOf (ps.getD i ("", ""))) ||
            ((mkUniqueGo seen ps).take i).contains (candOf (ps.getD i ("", ""))) then
          (ps.getD i ("", "")).1 ++ "_" ++ collisionTag (ps.getD i ("", "")).2
        else candOf (ps.getD i ("", ""))) := by
  induction ps with
  | nil => intro seen i h; simp at h
  | cons p rest ih =>
    intro seen i h
    cases p with
    | mk pname sname =>
      cases i with
      | zero => simp [mkUniqueGo]
      | succ j =>
        have hj : j < rest.length := by simpa using h
        simp only [mkUniqueGo, List.getD_cons_succ, List.take_succ_cons]
        rw [ih _ j hj]
        simp only [List.contains_cons]
        rw [bool_or_rot]

/-- Top-level form of the characterization: at position `i` the collision test
is exactly membership of the candidate among the first `i` assigned names. -/
theorem mkUniqueNames_getD (ps : List (String × String)) (i : Nat)
    (h : i < ps.length) :
    (mkUniqueNames ps).getD i "" =
      (if ((mkUniqueNames ps).take i).contains (candOf (ps.getD i ("", ""))) then
        (ps.getD i ("", "")).1 ++ "_" ++ collisionTag (ps.getD i ("", "")).2
      else candOf (ps.getD i ("", ""))) := by
  have := mkUniqueGo_getD ps [] i h
  simpa [mkUniqueNames] using this

theorem applyMask_keepFirstMaskGo (l : List String) :
    ∀ seen : List String, applyMask (keepFirstMaskGo seen l) l = dedupFirst seen l := by
  induction l with
  | nil => intro seen; rfl
  | cons n rest ih =>
    intro seen
    by_cases hm : n ∈ seen <;>
      simp [keepFirstMaskGo, applyMask, dedupFirst, hm, ← ih (n :: seen),
        List.filterMap_cons, List.zip_cons_cons]

theorem dedupFirst_nodup (l : List String) :
    ∀ seen : List String,
      (dedupFirst seen l).Nodup ∧ ∀ x ∈ dedupFirst seen l, x ∉ seen := by
  induction l with
  | nil => intro seen; simp [dedupFirst]
  | cons n rest ih =>
    intro seen
    by_cases hm : n ∈ seen
    · have heq : dedupFirst seen (n :: rest) = dedupFirst (n :: seen) rest := by
        simp [dedupFirst, hm]
      rw [heq]
      refine ⟨(ih (n :: seen)).1, fun x hx => ?_⟩
      exact fun hs => (ih (n :: seen)).2 x hx (List.mem_cons_of_mem n hs)
    · have heq : dedupFirst seen (n :: rest) = n :: dedupFirst (n :: seen) rest := by
        simp [dedupFirst, hm]
      rw [heq]
      have hnotmem : n ∉ dedupFirst (n :: seen) rest := by
        intro hmem
        exact (ih (n :: seen)).2 n hmem (List.mem_cons_self n seen)
      refine ⟨List.nodup_cons.mpr ⟨hnotmem, (ih (n :: seen)).1⟩, fun x hx => ?_⟩
      rcases List.mem_cons.mp hx with rfl | hx'
      · exact hm
      · exact fun hs => (ih (n :: seen)).2 x hx' (List.mem_cons_of_mem n hs)

/-- Output names of the column-deduplication mask are pairwise distinct. -/
theorem names_after_mask_nodup (ns : List String) :
    (applyMask (keepFirstMask ns) ns).Nodup := by
  rw [keepFirstMask, applyMask_keepFirstMaskGo]
  exact (dedupFirst_nodup ns []).1

theorem keepFirstMaskGo_length (l : List String) :
    ∀ seen : List String, (keepFirstMaskGo seen l).length = l.length := by
  induction l with
  | nil => intro seen; rfl
  | cons n rest ih => intro seen; simp [keepFirstMaskGo, ih]

theorem applyMask_nil_left {α : Type} (xs : List α) : applyMask [] xs = [] := rfl

theorem applyMask_nil_right {α : Type} (m : List Bool) :
    applyMask m ([] : List α) = [] := by
  cases m <;> rfl

theorem applyMask_cons_true {α : Type} (bs : List Bool) (x : α) (xs : List α) :
    applyMask (true :: bs) (x :: xs) = x :: applyMask bs xs := rfl

theorem applyMask_cons_false {α : Type} (bs : List Bool) (x : α) (xs : List α) :
    applyMask (false :: bs) (x :: xs) = applyMask bs xs := rfl

/-- On a duplicate-free list of fresh names the keep-first mask is all-true. -/
theorem keepFirstMaskGo_replicate (l : List String) :
    ∀ seen : List String, l.Nodup → (∀ x ∈ l, x ∉ seen) →
      keepFirstMaskGo seen l = List.replicate l.length true := by
  induction l with
  | nil => intro seen _ _; rfl
  | cons n rest ih =>
    intro seen hnd hfresh
    have hrest : ∀ x ∈ rest, x ∉ n :: seen := by
      intro x hx
      intro hmem
      rcases List.mem_cons.mp hmem with rfl | hs
      · exact (List.nodup_cons.mp hnd).1 hx
      · exact hfresh x (List.mem_cons_of_mem n hx) hs
    simp only [keepFirstMaskGo, List.length_cons, List.replicate_succ]
    rw [ih (n :: seen) (List.nodup_cons.mp hnd).2 hrest]
    simp [hfresh n (List.mem_cons_self n rest)]

theorem applyMask_replicate_true {α : Type} (xs : List α) :
    ∀ n : Nat, xs.length ≤ n → applyMask (List.replicate n true) xs = xs := by
  induction xs with
  | nil => intro n _; exact applyMask_nil_right _
  | cons x rest ih =>
    intro n hn
    cases n with
    | zero =>
      simp only [List.length_cons] at hn
      omega
    | succ m =>
      rw [List.replicate_succ, applyMask_cons_true]
      rw [ih m (by simp only [List.length_cons] at hn; omega)]

/-- Selecting by one mask never yields more entries from any list than from a
list at least as long as the mask. -/
theorem applyMask_length_mono {α β : Type} (m : List Bool) :
    ∀ (xs : List α) (ys : List β), m.length ≤ ys.length →
      (applyMask m xs).length ≤ (applyMask m ys).length := by
  induction m with
  | nil => intro xs ys _; simp [applyMask_nil_left]
  | cons b bs ih =>
    intro xs ys hlen
    cases ys with
    | nil =>
      simp only [List.length_cons, List.length_nil] at hlen
      omega
    | cons y ys' =>
      have hlen' : bs.length ≤ ys'.length := by
        simp only [List.length_cons] at hlen
        omega
      cases xs with
      | nil =>
        rw [applyMask_nil_right]
        exact Nat.zero_le _
      | cons x xs' =>
        cases b
        · rw [applyMask_cons_false, applyMask_cons_false]
          exact ih xs' ys' hlen'
        · rw [applyMask_cons_true, applyMask_cons_true]
          simp only [List.length_cons]
          exact Nat.succ_le_succ (ih xs' ys' hlen')

theorem pickStep_cases (acc : Option Table) (t : Table) :
    pickStep acc t = some t ∨ pickStep acc t = acc := by
  cases acc with
  | none => exact .inl rfl
  | some b =>
    by_cases h : shapeGT t b = true
    · exact .inl (by simp [pickStep, h])
    · exact .inr (by simp [pickStep, h])

theorem foldl_pickStep_mem (l : List Table) :
    ∀ (acc : Option Table) (t : Table),
      l.foldl pickStep acc = some t → acc = some t ∨ t ∈ l := by
  induction l with
  | nil => intro acc t h; exact .inl h
  | cons c cs ih =>
    intro acc t h
    rcases ih (pickStep acc c) t h with h1 | h2
    · rcases pickStep_cases acc c with h3 | h3
      · rw [h1] at h3
        exact .inr (by simp [Option.some_inj.mp h3])
      · exact .inl (h3 ▸ h1)
    · exact .inr (List.mem_cons_of_mem c h2)

/-- A discovered candidate is one of the candidates scanned. -/
theorem pickBiggest_mem (l : List Table) (t : Table) (h : pickBiggest l = some t) :
    t ∈ l := by
  rcases foldl_pickStep_mem l none t h with h1 | h2
  · cases h1
  · exact h2

theorem map_eq_self_of {α : Type} (l : List α) (f : α → α)
    (h : ∀ x ∈ l, f x = x) : l.map f = l :=
  (List.map_congr_left h).trans (List.map_id l)

/-- Closed form of the normalizer: mask the assigned names and the rows by
the keep-first mask, then drop the all-`NaN` rows. -/
theorem flatten_eq (h : Header) (rs : List (List (Option String))) :
    flatten_and_normalize_columns ⟨h, rs⟩ =
      ⟨.single (applyMask (keepFirstMask (rawNamesOf ⟨h, rs⟩)) (rawNamesOf ⟨h, rs⟩)),
       (rs.map (applyMask (keepFirstMask (rawNamesOf ⟨h, rs⟩)))).filter rowKept⟩ := by
  cases h <;> rfl

/-- The normalizer always returns a flat header. -/
theorem flatten_header_single (t : Table) :
    ∃ ns, (flatten_and_normalize_columns t).header = Header.single ns :=
  ⟨_, rfl⟩

theorem flatten_names_nodup (t : Table) :
    (fieldNames (flatten_and_normalize_columns t).header).Nodup := by
  obtain ⟨th, tr⟩ := t
  rw [flatten_eq]
  exact names_after_mask_nodup _

theorem flatten_rows_kept (t : Table) :
    ∀ r ∈ (flatten_and_normalize_columns t).rows, rowKept r = true := by
  obtain ⟨th, tr⟩ := t
  rw [flatten_eq]
  intro r hr
  exact (List.mem_filter.mp hr).2

theorem flatten_row_length (t : Table) :
    ∀ r ∈ (flatten_and_normalize_columns t).rows,
      r.length ≤ (fieldNames (flatten_and_normalize_columns t).header).length := by
  obtain ⟨th, tr⟩ := t
  rw [flatten_eq]
  intro r hr
  simp only [fieldNames]
  have hr2 := (List.mem_filter.mp hr).1
  rcases List.mem_map.mp hr2 with ⟨r0, _, rfl⟩
  exact applyMask_length_mono _ r0 _
    (le_of_eq (by rw [keepFirstMask, keepFirstMaskGo_length]))

/-- The normalizer fixes any flat table whose names are duplicate-free
normalization fixpoints and whose rows are non-empty and no wider than the
header. -/
theorem flatten_single_fix (ns : List String) (rs : List (List (Option String)))
    (hnodup : ns.Nodup) (hnorm : ∀ n ∈ ns, norm n = n)
    (hkept : ∀ r ∈ rs, rowKept r = true)
    (hlen : ∀ r ∈ rs, r.length ≤ ns.length) :
    flatten_and_normalize_columns ⟨.single ns, rs⟩ = ⟨.single ns, rs⟩ := by
  have hraw : rawNamesOf ⟨.single ns, rs⟩ = ns := map_eq_self_of ns norm hnorm
  have hmask : keepFirstMask ns = List.replicate ns.length true := by
    rw [keepFirstMask]
    exact keepFirstMaskGo_replicate ns [] hnodup (by simp)
  rw [flatten_eq, hraw, hmask]
  rw [applyMask_replicate_true ns ns.length (le_refl _)]
  rw [map_eq_self_of rs _ (fun r hr => applyMask_replicate_true r ns.length (hlen r hr))]
  rw [List.filter_eq_self.mpr hkept]

theorem isPrefixOf_self_append (l r : List Char) : l.isPrefixOf (l ++ r) = true := by
  induction l with
  | nil => simp
  | cons c cs ih => simp [List.isPrefixOf_cons₂, ih]

/-- A string always ends with its own appended suffix. -/
theorem pyEndsWith_append (a b : String) : pyEndsWith (a ++ b) b = true := by
  show b.toList.isSuffixOf (a.toList ++ b.toList) = true
  simp only [List.isSuffixOf, List.reverse_append]
  exact isPrefixOf_self_append _ _

/-- A five-character prefix-of-six equal to `"per90"` forces the whole string
to be `"per90"`, hence to contain it. -/
theorem take6_eq_per90 (s : String) (h : pyTake6 s = "per90") :
    hasSubstr s "per90" = true := by
  have hl : s.toList.take 6 = "per90".toList := congrArg String.toList h
  have hlen : s.toList.length = 5 := by
    have h2 := congrArg List.length hl
    simp only [List.length_take] at h2
    have h3 : "per90".toList.length = 5 := by decide
    omega
  have hs : s.toList = "per90".toList := by
    rw [← hl]
    exact (List.take_of_length_le (by omega)).symm
  show hasSubGo "per90".toList s.toList = true
  rw [hs]
  decide

/-- A section label that does not contain `"per90"` never produces the
collision tag `"per90"`. -/
theorem collisionTag_ne_per90 (s : String) (h : hasSubstr s "per90" = false) :
    collisionTag s ≠ "per90" := by
  intro hc
  rcases htm : tag_map s with _ | tg
  · rw [collisionTag, htm, Option.getD_none] at hc
    by_cases h6 : pyTake6 s = ""
    · rw [if_pos h6] at hc
      exact absurd hc (by decide)
    · rw [if_neg h6] at hc
      have h7 := take6_eq_per90 s hc
      rw [h] at h7
      exact absurd h7 (by decide)
  · rw [collisionTag, htm, Option.getD_some] at hc
    subst hc
    rw [tag_map] at htm
    split_ifs at htm with h1 h2 h3 h4 h5
    · exact absurd (Option.some_inj.mp htm) (by decide)
    · exact absurd (Option.some_inj.mp htm) (by decide)
    · exact absurd (Option.some_inj.mp htm) (by decide)
    · exact absurd (Option.some_inj.mp htm) (by decide)
    · rw [h5] at h
      exact absurd h (by decide)

/-- Re-running the normalizer on its own output changes nothing, provided
every output name is a fixpoint of the token rule. -/
theorem flatten_flatten_of_fix (t : Table)
    (h : ∀ n ∈ fieldNames (flatten_and_normalize_columns t).header, norm n = n) :
    flatten_and_normalize_columns (flatten_and_normalize_columns t) =
      flatten_and_normalize_columns t := by
  have hnodup := flatten_names_nodup t
  have hkept := flatten_rows_kept t
  have hlen := flatten_row_length t
  obtain ⟨th, tr⟩ := t
  rw [flatten_eq th tr] at h hnodup hkept hlen ⊢
  apply flatten_single_fix
  · simpa [fieldNames] using hnodup
  · simpa [fieldNames] using h
  · exact hkept
  · simpa [fieldNames] using hlen

example : norm "Date" = "date" := by decide
example : norm "G+APK" = "g_plus_apk" := by decide
example : norm "Per 90 Minutes" = "per90" := by decide
example : norm "Playing Time" = "playing_time" := by decide
example : norm "Something Per 90 Minutes" = "something_per90" := by decide
example : norm "_sec" = "sec" := by decide
example : norm "  G+A " = "g_plus_a" := by decide

example :
    fieldNames (flatten_and_normalize_columns
      ⟨.multi [["Performance", "Gls"], ["Per 90 Minutes", "Gls"]],
       [[some "1", some "2"]]⟩).header = ["gls", "gls_per90"] := by decide

example :
    fieldNames (flatten_and_normalize_columns
      ⟨.multi [["Per 90 Minutes", "Gls"], ["Something Per 90 Minutes", "Gls"]],
       [[some "1", some "2"]]⟩).header = ["gls_per90", "gls_someth"] := by decide

example :
    fieldNames (flatten_and_normalize_columns
      ⟨.multi [["Playing Time", "Min"], ["Playing Time", "Min"]],
       [[some "1", some "2"]]⟩).header = ["min", "min_pt"] := by decide

example :
    flatten_and_normalize_columns
      ⟨.multi [["", ""], ["", ""]], [[some "a", some "b"]]⟩ =
    ⟨.single ["", "_sec"], [[some "a", some "b"]]⟩ := by decide

example :
    flatten_and_normalize_columns ⟨.single ["", "_sec"], [[some "a", some "b"]]⟩ =
    ⟨.single ["", "sec"], [[some "a", some "b"]]⟩ := by decide

example :
    flatten_and_normalize_columns
      ⟨.single ["Date", "Home", "Away", "Score"],
       [[some "d1", some "h1", some "a1", some "s1"],
        [some "d2", some "h2", some "a2", some "s2"]]⟩ =
    ⟨.single ["date", "home", "away", "score"],
     [[some "d1", some "h1", some "a1", some "s1"],
      [some "d2", some "h2", some "a2", some "s2"]]⟩ := by decide

example :
    biggest_table
      ⟨[some ⟨.single ["a"], [[some "1"]]⟩],
       [[some ⟨.single ["b"], [[some "1"], [some "2"]]⟩]]⟩ =
    ⟨.single ["b"], [[some "1"], [some "2"]]⟩ := by decide

example : biggest_table ⟨[], []⟩ = Table.empty := by decide

example :
    teamTag
      [⟨none, ["W", "D", "L", "Sh", "SoT", "xG", "xGA", "G"], ⟨.single ["a"], [[some "1"]]⟩⟩,
       ⟨none, ["Sh", "SoT", "Tkl"], ⟨.single ["b"], [[some "1"]]⟩⟩] =
    some ⟨none, ["Sh", "SoT", "Tkl"], ⟨.single ["b"], [[some "1"]]⟩⟩ := by decide

example :
    specTeamPick
      [⟨none, ["W", "D", "L", "Sh", "SoT", "xG", "xGA", "G"], ⟨.single ["a"], [[some "1"]]⟩⟩,
       ⟨none, ["Sh", "SoT", "Tkl"], ⟨.single ["b"], [[some "1"]]⟩⟩] =
    some ⟨none, ["W", "D", "L", "Sh", "SoT", "xG", "xGA", "G"], ⟨.single ["a"], [[some "1"]]⟩⟩ := by
  decide

example :
    teamTag
      [⟨none, ["Sh", "SoT", "xG"], ⟨.single ["a"], [[some "1"]]⟩⟩,
       ⟨none, ["Sh", "SoT", "xG", "xGA", "G", "Ast", "Cmp"], ⟨.single ["b"], [[some "1"]]⟩⟩] =
    some ⟨none, ["Sh", "SoT", "xG"], ⟨.single ["a"], [[some "1"]]⟩⟩ := by decide

example :
    specTeamPick
      [⟨none, ["Sh", "SoT", "xG"], ⟨.single ["a"], [[some "1"]]⟩⟩,
       ⟨none, ["Sh", "SoT", "xG", "xGA", "G", "Ast", "Cmp"], ⟨.single ["b"], [[some "1"]]⟩⟩] =
    some ⟨none, ["Sh", "SoT", "xG", "xGA", "G", "Ast", "Cmp"], ⟨.single ["b"], [[some "1"]]⟩⟩ := by
  decide

/-! ### Claims -/

/-- C1: if visible discovery returns a non-empty table with strictly fewer
than 100 rows and hidden recovery returns a strictly larger table,
`biggest_table` returns the hidden table; if the visible table has at least
100 rows, `biggest_table` returns the visible table regardless of the hidden
table. -/
theorem c1_size_priority_law (d : HtmlDoc) (v : Table)
    (hvis : extract_biggest_table_from_html d.tables = some v)
    (hne : 0 < v.rows.length) :
    (∀ h : Table, v.rows.length < 100 →
        extract_biggest_table_from_html_comments d.commentBlocks = some h →
        v.rows.length < h.rows.length → biggest_table d = h)
    ∧ (100 ≤ v.rows.length → biggest_table d = v) := by
  have hv : optLen (some v) = v.rows.length := rfl
  constructor
  · intro h hsmall hhid hbig
    have hh : optLen (some h) = h.rows.length := rfl
    simp only [biggest_table, hvis, hhid]
    have hno1 : ¬((some v = none ∨ optLen (some v) = 0) ∧
        (some h ≠ none ∧ optLen (some h) ≠ 0)) := by
      rintro ⟨ha | ha, -⟩
      · exact Option.some_ne_none v ha
      · rw [hv] at ha
        omega
    have hyes2 : (some v ≠ none ∧ optLen (some v) ≠ 0 ∧ optLen (some v) < 100) ∧
        (some h ≠ none ∧ optLen (some h) > optLen (some v)) := by
      refine ⟨⟨Option.some_ne_none v, ?_, ?_⟩, Option.some_ne_none h, ?_⟩ <;>
        rw [hv] <;> try rw [hh]
      · omega
      · omega
      · omega
    rw [if_neg hno1, if_pos hyes2]
    rfl
  · intro hbig100
    simp only [biggest_table, hvis]
    have hno1 : ¬((some v = none ∨ optLen (some v) = 0) ∧
        (extract_biggest_table_from_html_comments d.commentBlocks ≠ none ∧
          optLen (extract_biggest_table_from_html_comments d.commentBlocks) ≠ 0)) := by
      rintro ⟨ha | ha, -⟩
      · exact Option.some_ne_none v ha
      · rw [hv] at ha
        omega
    have hno2 : ¬((some v ≠ none ∧ optLen (some v) ≠ 0 ∧ optLen (some v) < 100) ∧
        (extract_biggest_table_from_html_comments d.commentBlocks ≠ none ∧
          optLen (extract_biggest_table_from_html_comments d.commentBlocks) >
            optLen (some v))) := by
      rintro ⟨⟨-, -, hlt⟩, -⟩
      rw [hv] at hlt
      omega
    have hyes3 : some v ≠ none ∧ optLen (some v) ≠ 0 := by
      refine ⟨Option.some_ne_none v, ?_⟩
      rw [hv]
      omega
    rw [if_neg hno1, if_neg hno2, if_pos hyes3]
    rfl

/-- C1 witness: a concrete 1-row visible / 2-row hidden document where the
hidden table wins, and a 100-row visible document where the visible table
wins. -/
theorem c1_size_priority_law_witness :
    biggest_table
        ⟨[some ⟨.single ["a"], [[some "1"]]⟩],
         [[some ⟨.single ["b"], [[some "1"], [some "2"]]⟩]]⟩ =
      ⟨.single ["b"], [[some "1"], [some "2"]]⟩
    ∧ biggest_table
        ⟨[some ⟨.single ["a"], List.replicate 100 [some "x"]⟩],
         [[some ⟨.single ["b"], List.replicate 250 [some "y"]⟩]]⟩ =
      ⟨.single ["a"], List.replicate 100 [some "x"]⟩ := by
  constructor
  · exact (c1_size_priority_law
      ⟨[some ⟨.single ["a"], [[some "1"]]⟩],
       [[some ⟨.single ["b"], [[some "1"], [some "2"]]⟩]]⟩
      ⟨.single ["a"], [[some "1"]]⟩ (by decide) (by decide)).1
      ⟨.single ["b"], [[some "1"], [some "2"]]⟩ (by decide) (by decide) (by decide)
  · exact (c1_size_priority_law
      ⟨[some ⟨.single ["a"], List.replicate 100 [some "x"]⟩],
       [[some ⟨.single ["b"], List.replicate 250 [some "y"]⟩]]⟩
      ⟨.single ["a"], List.replicate 100 [some "x"]⟩ (by decide) (by decide)).2
      (by decide)

/-- C2: the claim says the token rule rewrites `"g+apk"` to `"g_plus_a_pk"`,
and in particular that `"G+APK"` normalizes to `"g_plus_a_pk"`.  In the code
the `"g+a"` substitution runs first and consumes the `"g+a"` prefix of every
`"g+apk"` occurrence, so the dedicated `"g+apk"` substitution never fires:
`"G+APK"` actually normalizes to `"g_plus_apk"`. -/
theorem c2_gapk_substitution_dead :
    norm "G+APK" = "g_plus_apk" ∧ norm "G+APK" ≠ "g_plus_a_pk" := by decide

/-- C4: for every input Candidate Table — single-level header, two-level
header, or duplicate base labels across sections — the output header is flat
and its field names are pairwise unique. -/
theorem c4_output_names_unique (t : Table) :
    (∃ ns, (flatten_and_normalize_columns t).header = Header.single ns)
    ∧ (fieldNames (flatten_and_normalize_columns t).header).Nodup :=
  ⟨flatten_header_single t, flatten_names_nodup t⟩

/-- C8: on a document with no parseable table anywhere — every structural
`<table>` fails to parse and every comment block likewise — both discovery
passes return nothing and `biggest_table` returns the explicitly empty table.
No exception can arise: the embedded `biggest_table` is a total function, as
in the source every candidate parse is wrapped in a local handler. -/
theorem c8_no_tables_empty_result (d : HtmlDoc)
    (hv : ∀ o ∈ d.tables, o = none)
    (hh : ∀ b ∈ d.commentBlocks, ∀ o ∈ b, o = none) :
    extract_biggest_table_from_html d.tables = none
    ∧ extract_biggest_table_from_html_comments d.commentBlocks = none
    ∧ biggest_table d = Table.empty := by
  have h1 : extract_biggest_table_from_html d.tables = none := by
    have hnil : (d.tables.filterMap fun o =>
        o.bind fun t => if t.rows.length ≠ 0
          then some (flatten_and_normalize_columns t) else none) = [] := by
      apply List.filterMap_eq_nil_iff.mpr
      intro o ho
      rw [hv o ho]
      rfl
    rw [extract_biggest_table_from_html, hnil]
    rfl
  have h2 : extract_biggest_table_from_html_comments d.commentBlocks = none := by
    have hnil : (d.commentBlocks.filterMap fun b =>
        (extract_biggest_table_from_html b).bind fun t =>
          if t.rows.length ≠ 0 then some t else none) = [] := by
      apply List.filterMap_eq_nil_iff.mpr
      intro b hb
      have hsub : extract_biggest_table_from_html b = none := by
        have hnil2 : (b.filterMap fun o =>
            o.bind fun t => if t.rows.length ≠ 0
              then some (flatten_and_normalize_columns t) else none) = [] := by
          apply List.filterMap_eq_nil_iff.mpr
          intro o ho
          rw [hh b hb o ho]
          rfl
        rw [extract_biggest_table_from_html, hnil2]
        rfl
      rw [hsub]
      rfl
    rw [extract_biggest_table_from_html_comments, hnil]
    rfl
  refine ⟨h1, h2, ?_⟩
  simp [biggest_table, h1, h2, optLen]

/-- C8 witness: the document with no table elements at all. -/
theorem c8_no_tables_empty_result_witness :
    extract_biggest_table_from_html (HtmlDoc.tables ⟨[], []⟩) = none
    ∧ extract_biggest_table_from_html_comments (HtmlDoc.commentBlocks ⟨[], []⟩) = none
    ∧ biggest_table ⟨[], []⟩ = Table.empty :=
  c8_no_tables_empty_result ⟨[], []⟩ (by simp) (by simp)

/-- C9: `biggest_table` is deterministic — equal raw documents produce
structurally identical Normalized Tables (same names in the same order, same
rows in the same order, same cells): the embedded engine is a pure function
of the document, with no hidden state. -/
theorem c9_biggest_table_deterministic (d1 d2 : HtmlDoc) (h : d1 = d2) :
    biggest_table d1 = biggest_table d2 := by
  rw [h]

/-- C9 witness at a concrete document. -/
theorem c9_biggest_table_deterministic_witness :
    biggest_table ⟨[some ⟨.single ["a"], [[some "1"]]⟩], []⟩ =
      biggest_table ⟨[some ⟨.single ["a"], [[some "1"]]⟩], []⟩ :=
  c9_biggest_table_deterministic _ _ rfl

/-- C3 counterexample: a column whose normalized section label
(`"something_per90"`) contains `"per90"` but whose candidate name collides
with an earlier column is assigned `"gls_someth"`, which does not end in
`"_per90"` — the unconditional per-90 suffix law fails on the code. -/
theorem c3_counterexample :
    fieldNames (flatten_and_normalize_columns
      ⟨.multi [["Per 90 Minutes", "Gls"], ["Something Per 90 Minutes", "Gls"]],
       [[some "1", some "2"]]⟩).header = ["gls_per90", "gls_someth"]
    ∧ hasSubstr (norm "Something Per 90 Minutes") "per90" = true
    ∧ pyEndsWith "gls_someth" "_per90" = false := by decide

/-- C3 (amended): a column whose normalized section label contains `"per90"`
gets a name ending in `"_per90"` whenever its candidate name was not already
assigned; on a collision the collision tag is appended to the bare base name
instead, and for a section label not containing `"per90"` the appended tag is
never `"per90"` (no `_per90` suffix is acquired).  In particular the
Performance/Per 90 Minutes pair yields `gls` and `gls_per90`. -/
theorem c3_per90_suffix_law :
    (∀ (ps : List (String × String)) (i : Nat), i < ps.length →
      (hasSubstr (ps.getD i ("", "")).2 "per90" = true →
        ((mkUniqueNames ps).take i).contains (candOf (ps.getD i ("", ""))) = false →
        pyEndsWith ((mkUniqueNames ps).getD i "") "_per90" = true)
      ∧ (hasSubstr (ps.getD i ("", "")).2 "per90" = false →
        (mkUniqueNames ps).getD i "" = (ps.getD i ("", "")).1 ∨
          ∃ tg, (mkUniqueNames ps).getD i "" = (ps.getD i ("", "")).1 ++ "_" ++ tg ∧
            tg ≠ "per90"))
    ∧ fieldNames (flatten_and_normalize_columns
        ⟨.multi [["Performance", "Gls"], ["Per 90 Minutes", "Gls"]],
         [[some "1", some "2"]]⟩).header = ["gls", "gls_per90"] := by
  constructor
  · intro ps i hi
    constructor
    · intro hp hnc
      rw [mkUniqueNames_getD ps i hi]
      rw [if_neg (by rw [hnc]; exact Bool.false_ne_true)]
      simp only [candOf]
      rw [if_pos hp]
      exact pyEndsWith_append _ _
    · intro hp
      rw [mkUniqueNames_getD ps i hi]
      by_cases hc :
          ((mkUniqueNames ps).take i).contains (candOf (ps.getD i ("", ""))) = true
      · rw [if_pos hc]
        exact .inr ⟨collisionTag (ps.getD i ("", "")).2, rfl,
          collisionTag_ne_per90 _ hp⟩
      · rw [if_neg hc]
        simp only [candOf]
        rw [if_neg (by rw [hp]; exact Bool.false_ne_true)]
        exact .inl rfl
  · decide

/-- C3 witness: the non-colliding per90 column of the scenario receives a name
ending in `"_per90"`. -/
theorem c3_per90_suffix_law_witness :
    pyEndsWith ((mkUniqueNames [("gls", "performance"), ("gls", "per90")]).getD 1 "")
      "_per90" = true :=
  (c3_per90_suffix_law.1 [("gls", "performance"), ("gls", "per90")] 1
    (by decide)).1 (by decide) (by decide)

/-- C5 counterexample.  First document: the w/d/l-without-points table has the
greatest vocabulary overlap and is eligible under the claim, yet the code
excludes it (its exclusion test is the w/d/l superset alone) and returns the
later, smaller-overlap table.  Second document: two eligible tables, the
second with the greater overlap — the code returns the first with overlap at
least 3, not the greatest. -/
theorem c5_counterexample :
    ((∀ t ∈ ([⟨none, ["W", "D", "L", "Sh", "SoT", "xG", "xGA", "G"],
          ⟨.single ["a"], [[some "1"]]⟩⟩,
        ⟨none, ["Sh", "SoT", "Tkl"], ⟨.single ["b"], [[some "1"]]⟩⟩] :
          List TableTag), t.id = none)
      ∧ (detect_standings_and_teamstats
          [⟨none, ["W", "D", "L", "Sh", "SoT", "xG", "xGA", "G"],
            ⟨.single ["a"], [[some "1"]]⟩⟩,
           ⟨none, ["Sh", "SoT", "Tkl"], ⟨.single ["b"], [[some "1"]]⟩⟩]).2 ≠
        (specTeamPick
          [⟨none, ["W", "D", "L", "Sh", "SoT", "xG", "xGA", "G"],
            ⟨.single ["a"], [[some "1"]]⟩⟩,
           ⟨none, ["Sh", "SoT", "Tkl"], ⟨.single ["b"], [[some "1"]]⟩⟩]).map
          (fun t => flatten_and_normalize_columns t.content))
    ∧ ((∀ t ∈ ([⟨none, ["Sh", "SoT", "xG"], ⟨.single ["a"], [[some "1"]]⟩⟩,
        ⟨none, ["Sh", "SoT", "xG", "xGA", "G", "Ast", "Cmp"],
          ⟨.single ["b"], [[some "1"]]⟩⟩] : List TableTag), t.id = none)
      ∧ (detect_standings_and_teamstats
          [⟨none, ["Sh", "SoT", "xG"], ⟨.single ["a"], [[some "1"]]⟩⟩,
           ⟨none, ["Sh", "SoT", "xG", "xGA", "G", "Ast", "Cmp"],
            ⟨.single ["b"], [[some "1"]]⟩⟩]).2 ≠
        (specTeamPick
          [⟨none, ["Sh", "SoT", "xG"], ⟨.single ["a"], [[some "1"]]⟩⟩,
           ⟨none, ["Sh", "SoT", "xG", "xGA", "G", "Ast", "Cmp"],
            ⟨.single ["b"], [[some "1"]]⟩⟩]).map
          (fun t => flatten_and_normalize_columns t.content)) := by decide

/-- C5 (amended): when no table carries a priority identifier, team-aggregate
detection returns the first table in document order whose lowercased header
overlap with the key-metric vocabulary is at least 3 and whose headers are not
a superset of w, d, l — a w/d/l table is excluded even without pts/points. -/
theorem c5_team_aggregate_fallback (doc : List TableTag)
    (h1 : doc.find? (fun t => t.id == some "stats_squads_standard_for") = none)
    (h2 : doc.find? (fun t => t.id == some "stats_squads_standard") = none) :
    (detect_standings_and_teamstats doc).2 =
      (doc.find? teamFallbackPred).map
        (fun t => flatten_and_normalize_columns t.content) := by
  simp only [detect_standings_and_teamstats, teamTag, h1, h2]

/-- C5 witness: a single eligible table is detected by the fallback scan. -/
theorem c5_team_aggregate_fallback_witness :
    (detect_standings_and_teamstats
      [⟨none, ["Sh", "SoT", "Tkl"], ⟨.single ["b"], [[some "1"]]⟩⟩]).2 =
    (([⟨none, ["Sh", "SoT", "Tkl"], ⟨.single ["b"], [[some "1"]]⟩⟩] :
        List TableTag).find? teamFallbackPred).map
      (fun t => flatten_and_normalize_columns t.content) :=
  c5_team_aggregate_fallback _ (by decide) (by decide)

/-- C6 counterexample: the collision over the Playing Time section is tagged
`"pt"` by the code, while the claim's fixed map — keyed by the label
`"playing time"` with a space, which can never equal a normalized section
label — would fall back to the first six characters and predict
`"min_playin"`. -/
theorem c6_counterexample :
    fieldNames (flatten_and_normalize_columns
      ⟨.multi [["Playing Time", "Min"], ["Playing Time", "Min"]],
       [[some "1", some "2"]]⟩).header = ["min", "min_pt"]
    ∧ "min" ++ "_" ++ specTagOfSection (norm "Playing Time") = "min_playin"
    ∧ "min_playin" ≠ "min_pt" := by decide

/-- C6 (amended): on a collision — the candidate name already assigned to an
earlier column — the assigned name is the base name, an underscore, and the
collision tag, where the tag map is keyed by the normalized section labels
(`"playing_time"` → `"pt"`, `"performance"` → `"perf"`, `"expected"` →
`"exp"`, `"progression"` → `"prog"`, `"per90"` → `"per90"`), falling back to
the first six normalized characters or `"sec"` when empty; without a
collision the candidate is kept; either way the result is recorded as
assigned and never revisited (the collision test at position `i` is exactly
membership among the `i` names already emitted). -/
theorem c6_collision_resolution (ps : List (String × String)) (i : Nat)
    (hi : i < ps.length) :
    ((((mkUniqueNames ps).take i).contains (candOf (ps.getD i ("", ""))) = true →
        (mkUniqueNames ps).getD i "" =
          (ps.getD i ("", "")).1 ++ "_" ++ collisionTag (ps.getD i ("", "")).2)
      ∧ (((mkUniqueNames ps).take i).contains (candOf (ps.getD i ("", ""))) = false →
        (mkUniqueNames ps).getD i "" = candOf (ps.getD i ("", ""))))
    ∧ collisionTag "playing_time" = "pt"
    ∧ collisionTag "performance" = "perf"
    ∧ collisionTag "expected" = "exp"
    ∧ collisionTag "progression" = "prog"
    ∧ collisionTag "per90" = "per90"
    ∧ (∀ s, tag_map s = none →
        collisionTag s = if pyTake6 s = "" then "sec" else pyTake6 s) := by
  refine ⟨⟨?_, ?_⟩, by decide, by decide, by decide, by decide, by decide, ?_⟩
  · intro hc
    rw [mkUniqueNames_getD ps i hi, if_pos hc]
  · intro hc
    rw [mkUniqueNames_getD ps i hi, if_neg (by rw [hc]; exact Bool.false_ne_true)]
  · intro s hs
    rw [collisionTag, hs, Option.getD_none]

/-- C6 witness: the duplicated Playing Time/Min column is tagged `"pt"`. -/
theorem c6_collision_resolution_witness :
    (mkUniqueNames [("min", "playing_time"), ("min", "playing_time")]).getD 1 "" =
      ("min", "playing_time").1 ++ "_" ++ collisionTag ("min", "playing_time").2 :=
  (c6_collision_resolution [("min", "playing_time"), ("min", "playing_time")] 1
    (by decide)).1.1 (by decide)

/-- C7 counterexample: a two-level header whose labels are all empty yields
the names `""` and `"_sec"`; re-running the normalizer strips the leading
underscore and renames the second column to `"sec"`, so flattening is not
idempotent on every table. -/
theorem c7_counterexample :
    flatten_and_normalize_columns (flatten_and_normalize_columns
      ⟨.multi [["", ""], ["", ""]], [[some "a", some "b"]]⟩) ≠
    flatten_and_normalize_columns
      ⟨.multi [["", ""], ["", ""]], [[some "a", some "b"]]⟩ := by decide

/-- C7 (amended): flattening is idempotent on every table whose output field
names are fixpoints of the token rule (which fails only for names with a
leading or trailing underscore, produced from empty base labels or
underscore-truncated section tags): the second application removes no rows
and changes no names. -/
theorem c7_flatten_idempotent (t : Table)
    (h : ∀ n ∈ fieldNames (flatten_and_normalize_columns t).header, norm n = n) :
    flatten_and_normalize_columns (flatten_and_normalize_columns t) =
      flatten_and_normalize_columns t :=
  flatten_flatten_of_fix t h

/-- C7 witness: a concrete normal table is fixed by the second pass. -/
theorem c7_flatten_idempotent_witness :
    flatten_and_normalize_columns (flatten_and_normalize_columns
      ⟨.single ["Date", "Home"], [[some "x", some "y"]]⟩) =
    flatten_and_normalize_columns ⟨.single ["Date", "Home"], [[some "x", some "y"]]⟩ :=
  c7_flatten_idempotent ⟨.single ["Date", "Home"], [[some "x", some "y"]]⟩ (by decide)

set_option maxRecDepth 4000 in
/-- C10: the sizes the selection policy sees are post-normalization sizes.
Every visible-discovery result is the normalization of some raw table with at
least one raw row (ranking runs after `flatten_and_normalize_columns`); and
there is a document whose visible table has 100 raw rows — one fully empty —
whose normalized row count 99 falls under the threshold, so the larger hidden
table is selected. -/
theorem c10_post_normalization_sizes :
    (∀ (d : HtmlDoc) (t : Table),
        extract_biggest_table_from_html d.tables = some t →
          ∃ r, some r ∈ d.tables ∧ 0 < r.rows.length ∧
            t = flatten_and_normalize_columns r)
    ∧ (100 ≤ (List.replicate 99 [some "x"] ++ [[none]] :
          List (List (Option String))).length
      ∧ (flatten_and_normalize_columns
          ⟨.single ["a"], List.replicate 99 [some "x"] ++ [[none]]⟩).rows.length = 99
      ∧ biggest_table
          ⟨[some ⟨.single ["a"], List.replicate 99 [some "x"] ++ [[none]]⟩],
           [[some ⟨.single ["b"], List.replicate 150 [some "y"]⟩]]⟩ =
        flatten_and_normalize_columns ⟨.single ["b"], List.replicate 150 [some "y"]⟩) := by
  constructor
  · intro d t h
    have hmem := pickBiggest_mem _ _ h
    rcases List.mem_filterMap.mp hmem with ⟨o, ho, hfo⟩
    cases o with
    | none => exact Option.noConfusion hfo
    | some r =>
      have hfo2 : (if r.rows.length ≠ 0
          then some (flatten_and_normalize_columns r) else none) = some t := hfo
      split_ifs at hfo2 with hr
      exact ⟨r, ho, Nat.pos_of_ne_zero hr, (Option.some_inj.mp hfo2).symm⟩
  · exact ⟨by decide, by decide, by decide⟩

/-- C10 witness: the discovered table of a one-table document is the
normalization of that raw table. -/
theorem c10_post_normalization_sizes_witness :
    ∃ r, some r ∈ [some (⟨.single ["A"], [[some "1"]]⟩ : Table)]
      ∧ 0 < r.rows.length
      ∧ flatten_and_normalize_columns ⟨.single ["A"], [[some "1"]]⟩ =
          flatten_and_normalize_columns r :=
  c10_post_normalization_sizes.1 ⟨[some ⟨.single ["A"], [[some "1"]]⟩], []⟩
    (flatten_and_normalize_columns ⟨.single ["A"], [[some "1"]]⟩) rfl

end FbrefParser
